import Mathlib

/-!
Verification of the WLED context-effects integration core.

Shallow embedding of the repository's Python code: pure computations are
translated to Lean functions over exact arithmetic (`ℚ` for Python floats,
`ℤ`/`ℕ` for Python ints), stateful objects become explicit state-passing
functions, and the event-loop time is an explicit rational-valued clock
threaded through each call.
-/

namespace WledExt

/-- Python `int(x)`: truncation toward zero, on an exact rational value. -/
def pyInt (q : ℚ) : ℤ := if 0 ≤ q then ⌊q⌋ else ⌈q⌉

/-- Python `round(x)` (one argument): round half to even, on an exact rational value. -/
def pyRound (q : ℚ) : ℤ :=
  let f := ⌊q⌋
  let frac := q - f
  if frac < 1/2 then f
  else if 1/2 < frac then f + 1
  else if f % 2 = 0 then f else f + 1

theorem pyInt_intCast (n : ℤ) : pyInt (n : ℚ) = n := by
  unfold pyInt
  split <;> simp

theorem pyInt_of_nonneg {q : ℚ} (h : 0 ≤ q) : pyInt q = ⌊q⌋ := by
  unfold pyInt
  simp [h]

theorem pyInt_add_sub (x y : ℤ) : pyInt ((x : ℚ) + ((y : ℚ) - (x : ℚ))) = y := by
  rw [show (x : ℚ) + ((y : ℚ) - (x : ℚ)) = (y : ℚ) by ring, pyInt_intCast]

/-! ### DataMapper (`data_mapper.py`, class `DataMapper`) -/

/-- The interpolation curves accepted by `DataMapper` (`curve` constructor argument).
Any other string behaves as `linear`, so the embedding uses an enumeration. -/
inductive Curve
  | linear
  | easeIn
  | easeOut
  | easeInOut
deriving DecidableEq

/-- `DataMapper.__init__` fields. -/
structure DataMapper where
  inputMin : ℚ
  inputMax : ℚ
  outputMin : ℚ
  outputMax : ℚ
  clamp : Bool
  curve : Curve

/-- `DataMapper.map`: normalize to 0–1 (0.5 on a degenerate input range), apply the
curve, rescale to the output range, clamp if requested. -/
def DataMapper.map (m : DataMapper) (value : ℚ) : ℚ :=
  let inputRange := m.inputMax - m.inputMin
  let normalized := if inputRange = 0 then 1/2 else (value - m.inputMin) / inputRange
  let curved :=
    match m.curve with
    | .easeIn => normalized ^ 2
    | .easeOut => 1 - (1 - normalized) ^ 2
    | .easeInOut =>
        if normalized < 1/2 then 2 * normalized ^ 2 else 1 - 2 * (1 - normalized) ^ 2
    | .linear => normalized
  let outputRange := m.outputMax - m.outputMin
  let output := m.outputMin + curved * outputRange
  if m.clamp then max m.outputMin (min m.outputMax output) else output

/-- `DataMapper.map_to_int`: `int(round(self.map(value)))`. -/
def DataMapper.mapToInt (m : DataMapper) (value : ℚ) : ℤ := pyRound (m.map value)

/-! ### Color interpolation (`effects/base.py`, `WLEDEffectBase.interpolate_color`) -/

/-- An RGB triple with integer channels. -/
abbrev Color := ℤ × ℤ × ℤ

/-- `WLEDEffectBase.interpolate_color`: per-channel
`int(c1 + (c2 - c1) * position)`. -/
def interpolateColor (color1 color2 : Color) (position : ℚ) : Color :=
  (pyInt (color1.1 + (color2.1 - color1.1) * position),
   pyInt (color1.2.1 + (color2.2.1 - color1.2.1) * position),
   pyInt (color1.2.2 + (color2.2.2 - color1.2.2) * position))

/-! ### Meter fill count (`effects/meter.py`, `MeterEffect.run_effect` line 178) -/

/-- `fill_leds = int((self.current_level / 100.0) * led_count)`. -/
def meterFillLeds (currentLevel : ℚ) (ledCount : ℕ) : ℤ :=
  pyInt (currentLevel / 100 * ledCount)

/-! ## Claims C7, C8, C9 -/

/-- **C8**: for RGB triples with integer channels in 0..255,
`interpolate_color(c1, c2, 0) = c1` and `interpolate_color(c1, c2, 1) = c2` exactly. -/
theorem c8_interpolate_color_endpoints (c1 c2 : Color)
    (h1 : 0 ≤ c1.1 ∧ c1.1 ≤ 255) (h2 : 0 ≤ c1.2.1 ∧ c1.2.1 ≤ 255)
    (h3 : 0 ≤ c1.2.2 ∧ c1.2.2 ≤ 255) (h4 : 0 ≤ c2.1 ∧ c2.1 ≤ 255)
    (h5 : 0 ≤ c2.2.1 ∧ c2.2.1 ≤ 255) (h6 : 0 ≤ c2.2.2 ∧ c2.2.2 ≤ 255) :
    interpolateColor c1 c2 0 = c1 ∧ interpolateColor c1 c2 1 = c2 := by
  obtain ⟨a, b, c⟩ := c1
  obtain ⟨d, e, f⟩ := c2
  refine ⟨?_, ?_⟩ <;>
    simp only [interpolateColor, mul_zero, mul_one, add_zero] <;>
    exact Prod.ext (by simp [pyInt_intCast, pyInt_add_sub])
      (Prod.ext (by simp [pyInt_intCast, pyInt_add_sub]) (by simp [pyInt_intCast, pyInt_add_sub]))

/-- Witness for C8 at concrete colors. -/
theorem c8_interpolate_color_endpoints_witness :
    interpolateColor (10, 20, 30) (255, 0, 128) 0 = (10, 20, 30) ∧
      interpolateColor (10, 20, 30) (255, 0, 128) 1 = (255, 0, 128) :=
  c8_interpolate_color_endpoints (10, 20, 30) (255, 0, 128)
    (by decide) (by decide) (by decide) (by decide) (by decide) (by decide)

/-- The mapper configured as in claim C9:
input range 0..100, output range 0..255, linear curve, clamping enabled. -/
def mapperC9 : DataMapper :=
  { inputMin := 0, inputMax := 100, outputMin := 0, outputMax := 255,
    clamp := true, curve := .linear }

theorem mapperC9_map_50 : mapperC9.map 50 = 255 / 2 := by
  simp only [DataMapper.map, mapperC9]
  norm_num

theorem mapperC9_mapToInt_50 : mapperC9.mapToInt 50 = 128 := by
  have hfloor : ⌊(255 / 2 : ℚ)⌋ = 127 := by
    rw [Int.floor_eq_iff]
    norm_num
  simp only [DataMapper.mapToInt, mapperC9_map_50, pyRound, hfloor]
  norm_num

/-- **C9 counterexample**: `map_to_int(50)` with input range 0..100, output range
0..255, linear curve and clamping does not return 127; the intermediate value is
127.5 and Python `round` rounds half to even, giving 128. -/
theorem c9_map_to_int_50_ne_127 : mapperC9.mapToInt 50 ≠ 127 := by
  rw [mapperC9_mapToInt_50]
  decide

/-- **C9 (amended)**: mapping 50 through the DataMapper with input range 0..100,
output range 0..255, linear curve and clamping, then converting with `map_to_int`,
returns 128 (the half-to-even rounding of 127.5). -/
theorem c9_map_to_int_50_eq_128 : mapperC9.mapToInt 50 = 128 := mapperC9_mapToInt_50

/-- **C7 counterexample**: at `level = 40`, `led_count = 2` the code computes
`int(0.4 * 2) = 0`, while the nearest-integer rounding of `0.8` is `1`. -/
theorem c7_fill_leds_not_round :
    meterFillLeds 40 2 = 0 ∧ pyRound ((40 : ℚ) / 100 * 2) = 1 := by
  have h08 : (40 : ℚ) / 100 * 2 = 4 / 5 := by norm_num
  have hfloor : ⌊(4 / 5 : ℚ)⌋ = 0 := by
    rw [Int.floor_eq_iff]
    norm_num
  constructor
  · rw [meterFillLeds, show (40 : ℚ) / 100 * ((2 : ℕ) : ℚ) = 4 / 5 by norm_num,
      pyInt_of_nonneg (by norm_num), hfloor]
  · rw [h08]
    simp only [pyRound, hfloor]
    norm_num

/-- **C7 (amended)**: in the Meter effect's render step the number of lit LEDs is
the *truncation* (floor, since level ≥ 0) of `level/100 · led_count`, not its
nearest-integer rounding. -/
theorem c7_fill_leds_eq_floor (level : ℚ) (ledCount : ℕ) (h : 0 ≤ level) :
    meterFillLeds level ledCount = ⌊level * ledCount / 100⌋ := by
  unfold meterFillLeds
  rw [pyInt_of_nonneg (by positivity)]
  congr 1
  ring

/-- Witness for the amended C7 at `level = 40`, `led_count = 2`. -/
theorem c7_fill_leds_eq_floor_witness :
    meterFillLeds 40 2 = ⌊(40 : ℚ) * 2 / 100⌋ :=
  c7_fill_leds_eq_floor 40 2 (by norm_num)

/-! ### Exception-name resolution in `effects/base.py` (claim C10)

`effects/base.py` names `WLEDConnectionError` in the first `except` clause of
`set_individual_leds`, `set_led`, `set_led_range` and `clear_individual_leds`,
but never imports or defines it.  Python evaluates an `except` clause's tuple
expression only when an exception is raised in the `try` body, looking each
root identifier up in the enclosing scopes (here: module globals, then
builtins); an unbound identifier raises `NameError` at that point. -/

/-- Names bound at module scope in `effects/base.py`: its import list
(lines 1–26) and its module-level definitions. -/
def baseModuleBindings : List String :=
  ["annotations", "asyncio", "logging", "abstractmethod", "datetime",
   "TYPE_CHECKING", "Any", "Protocol", "runtime_checkable", "WLED",
   "BLEND_MODE_AVERAGE", "DEFAULT_BLEND_MODE", "DEFAULT_BRIGHTNESS",
   "DEFAULT_FREEZE_ON_MANUAL", "DEFAULT_REVERSE_DIRECTION", "DEFAULT_SEGMENT_ID",
   "DEFAULT_TRANSITION_MODE", "DEFAULT_ZONE_COUNT", "TRANSITION_MODE_SMOOTH",
   "DataMapper", "MultiInputBlender", "ValueSmoother", "EffectExecutionError",
   "TriggerConfig", "TriggerManager", "WLEDJsonApiClient",
   "_LOGGER", "EffectProtocol", "WLEDEffectBase"]

/-- The Python builtin exception names relevant to these clauses. -/
def pythonBuiltins : List String :=
  ["Exception", "OSError", "ValueError", "TypeError", "AttributeError",
   "ConnectionError", "TimeoutError", "NameError", "KeyError", "IndexError"]

/-- Name lookup for an identifier used inside a method of `effects/base.py`:
module globals, then builtins (no enclosing local binding exists for these). -/
def pyResolves (name : String) : Bool :=
  name ∈ baseModuleBindings || name ∈ pythonBuiltins

/-- Outcome of the `try/except` dispatch once the `try` body has raised. -/
inductive ExceptOutcome
  | handled (wrapper : String)
  | nameError
  | unhandled
deriving DecidableEq

/-- Evaluate `except (n1, n2, ...)` clauses in order, as Python does: each
clause's tuple expression is evaluated first, raising `NameError` if a root
identifier is unbound; only then is the raised exception matched against the
classes (`matchesClause` is the subclass test). -/
def runExceptClauses (raised : String) (matchesClause : String → List String → Bool) :
    List (List String × String) → ExceptOutcome
  | [] => .unhandled
  | (names, wrapper) :: rest =>
      if names.all pyResolves then
        if matchesClause raised names then .handled wrapper
        else runExceptClauses raised matchesClause rest
      else .nameError

/-- The `except` clauses of `WLEDEffectBase.set_individual_leds`
(root identifiers of each clause, and the typed error its handler re-raises). -/
def setIndividualLedsClauses : List (List String × String) :=
  [(["WLEDConnectionError", "OSError", "asyncio"], "EffectExecutionError"),
   (["ValueError", "TypeError", "AttributeError"], "EffectExecutionError")]

/-- The `except` clauses of `WLEDEffectBase.set_led`. -/
def setLedClauses : List (List String × String) :=
  [(["WLEDConnectionError", "OSError", "asyncio"], "EffectExecutionError"),
   (["ValueError", "TypeError"], "EffectExecutionError")]

/-- The `except` clauses of `WLEDEffectBase.set_led_range`. -/
def setLedRangeClauses : List (List String × String) :=
  [(["WLEDConnectionError", "OSError", "asyncio"], "EffectExecutionError"),
   (["ValueError", "TypeError"], "EffectExecutionError")]

/-- The `except` clauses of `WLEDEffectBase.clear_individual_leds`. -/
def clearIndividualLedsClauses : List (List String × String) :=
  [(["WLEDConnectionError", "OSError", "asyncio"], "EffectExecutionError"),
   (["ValueError", "TypeError"], "EffectExecutionError")]

/-- **C10**: `WLEDConnectionError` is unbound in `effects/base.py`, so whatever
exception the JSON client raises inside `set_individual_leds` (or `set_led`,
`set_led_range`, `clear_individual_leds`), evaluating the first `except` clause
raises `NameError`: the caller sees `NameError`, never the documented
`EffectExecutionError`. -/
theorem c10_except_clauses_raise_name_error
    (raised : String) (matchesClause : String → List String → Bool) :
    runExceptClauses raised matchesClause setIndividualLedsClauses = .nameError ∧
    runExceptClauses raised matchesClause setLedClauses = .nameError ∧
    runExceptClauses raised matchesClause setLedRangeClauses = .nameError ∧
    runExceptClauses raised matchesClause clearIndividualLedsClauses = .nameError ∧
    pyResolves "WLEDConnectionError" = false :=
  ⟨rfl, rfl, rfl, rfl, rfl⟩

/-! ### CircuitBreaker (`wled_effects/circuit_breaker.py`, class `CircuitBreaker`)

The mutable object becomes explicit state passing; `time.time()` readings
become an explicit rational-valued `now` argument to each call. -/

/-- `CircuitState` (`closed` / `open` / `half_open`); `open` is a Lean keyword,
so the OPEN state is named `opened`. -/
inductive CircuitState
  | closed
  | opened
  | halfOpen
deriving DecidableEq

/-- The fields of `CircuitBreaker`. -/
structure CircuitBreaker where
  failureThreshold : ℕ
  timeout : ℚ
  state : CircuitState
  failureCount : ℕ
  lastFailureTime : Option ℚ
  successCount : ℕ
deriving DecidableEq

/-- `CircuitBreaker.__init__`. -/
def CircuitBreaker.init (failureThreshold : ℕ) (timeout : ℚ) : CircuitBreaker :=
  { failureThreshold := failureThreshold, timeout := timeout, state := .closed,
    failureCount := 0, lastFailureTime := none, successCount := 0 }

/-- `CircuitBreaker._should_attempt_reset`, `now` being the `time.time()` reading. -/
def CircuitBreaker.shouldAttemptReset (b : CircuitBreaker) (now : ℚ) : Bool :=
  match b.lastFailureTime with
  | none => false
  | some t => decide (b.timeout ≤ now - t)

/-- `CircuitBreaker._on_success`. -/
def CircuitBreaker.onSuccess (b : CircuitBreaker) : CircuitBreaker :=
  let b1 := { b with successCount := b.successCount + 1 }
  if b1.state = .halfOpen then { b1 with state := .closed, failureCount := 0 } else b1

/-- `CircuitBreaker._on_failure`, `now` being the `time.time()` reading. -/
def CircuitBreaker.onFailure (b : CircuitBreaker) (now : ℚ) : CircuitBreaker :=
  let b1 := { b with failureCount := b.failureCount + 1, lastFailureTime := some now }
  if b1.state = .halfOpen then { b1 with state := .opened }
  else if b1.failureThreshold ≤ b1.failureCount then { b1 with state := .opened }
  else b1

/-- Result of one `CircuitBreaker.call`: either the call is rejected with
`CircuitBreakerOpenError` (wrapped function not invoked), or the wrapped
function is invoked and succeeds or fails. -/
inductive CallResult
  | rejected
  | invoked (success : Bool)
deriving DecidableEq

/-- `CircuitBreaker.call` at time `now`; `success` tells whether the wrapped
function, when invoked, succeeds. -/
def CircuitBreaker.call (b : CircuitBreaker) (now : ℚ) (success : Bool) :
    CallResult × CircuitBreaker :=
  if b.state = .opened then
    if b.shouldAttemptReset now then
      let b1 := { b with state := CircuitState.halfOpen }
      if success then (.invoked true, b1.onSuccess) else (.invoked false, b1.onFailure now)
    else (.rejected, b)
  else
    if success then (.invoked true, b.onSuccess) else (.invoked false, b.onFailure now)

/-- Iterate `call` over a list of `(time, success)` attempts. -/
def CircuitBreaker.callSeq (b : CircuitBreaker) :
    List (ℚ × Bool) → List CallResult × CircuitBreaker
  | [] => ([], b)
  | a :: rest =>
      let step := b.call a.1 a.2
      let tail := step.2.callSeq rest
      (step.1 :: tail.1, tail.2)

theorem callSeq_fail_run (ts : List ℚ) :
    ∀ (b : CircuitBreaker), b.state = .closed →
      b.failureCount + ts.length = b.failureThreshold → ∀ (hne : ts ≠ []),
      (b.callSeq (ts.map fun t => (t, false))).1 =
          ts.map (fun _ => CallResult.invoked false) ∧
        (b.callSeq (ts.map fun t => (t, false))).2 =
          { b with state := .opened, failureCount := b.failureThreshold,
                   lastFailureTime := some (ts.getLast hne) } := by
  induction ts with
  | nil => intro _ _ _ hne; exact absurd rfl hne
  | cons t rest ih =>
    intro b hst hcnt hne
    have hnotOpen : b.state ≠ CircuitState.opened := by rw [hst]; intro h; cases h
    have hcall : b.call t false = (.invoked false, b.onFailure t) := by
      rw [CircuitBreaker.call, if_neg hnotOpen]
      rfl
    cases rest with
    | nil =>
      have hthr : b.failureThreshold ≤ b.failureCount + 1 := by
        simp at hcnt
        omega
      have honf : b.onFailure t =
          { b with state := .opened, failureCount := b.failureCount + 1,
                   lastFailureTime := some t } := by
        rw [CircuitBreaker.onFailure]
        simp only [hst]
        rw [if_neg (by intro h; cases h), if_pos hthr]
      simp only [List.map_cons, List.map_nil, CircuitBreaker.callSeq, hcall, honf]
      simp at hcnt ⊢
      omega
    | cons t2 rest2 =>
      have hlt : ¬ b.failureThreshold ≤ b.failureCount + 1 := by
        simp at hcnt
        omega
      have honf : b.onFailure t =
          { b with failureCount := b.failureCount + 1, lastFailureTime := some t } := by
        rw [CircuitBreaker.onFailure]
        simp only [hst]
        rw [if_neg (by intro h; cases h), if_neg hlt]
      have hne2 : t2 :: rest2 ≠ ([] : List ℚ) := by simp
      have ihr := ih { b with failureCount := b.failureCount + 1,
                              lastFailureTime := some t }
        (by simp [hst]) (by simp at hcnt ⊢; omega) hne2
      simp only [List.map_cons, CircuitBreaker.callSeq, hcall, honf] at ihr ⊢
      refine ⟨by simp [ihr.1], ?_⟩
      rw [ihr.2]
      simp [List.getLast_cons hne2]

theorem call_rejected_of_open (b : CircuitBreaker) (tf now : ℚ) (s : Bool)
    (hst : b.state = .opened) (hlf : b.lastFailureTime = some tf)
    (hnow : now - tf < b.timeout) :
    b.call now s = (.rejected, b) := by
  rw [CircuitBreaker.call, if_pos hst]
  have : b.shouldAttemptReset now = false := by
    rw [CircuitBreaker.shouldAttemptReset, hlf]
    simp
    linarith
  rw [this]
  simp

theorem callSeq_rejected_of_open (b : CircuitBreaker) (tf : ℚ)
    (hst : b.state = .opened) (hlf : b.lastFailureTime = some tf)
    (attempts : List (ℚ × Bool)) (hall : ∀ a ∈ attempts, a.1 - tf < b.timeout) :
    (b.callSeq attempts).1 = attempts.map (fun _ => CallResult.rejected) ∧
      (b.callSeq attempts).2 = b := by
  induction attempts with
  | nil => exact ⟨rfl, rfl⟩
  | cons a rest ih =>
    have hcall := call_rejected_of_open b tf a.1 a.2 hst hlf (hall a (by simp))
    have ihr := ih (fun x hx => hall x (by simp [hx]))
    simp only [CircuitBreaker.callSeq, hcall, List.map_cons]
    exact ⟨by simp [ihr.1], ihr.2⟩

theorem call_probe_of_open (b : CircuitBreaker) (tf now : ℚ)
    (hst : b.state = .opened) (hlf : b.lastFailureTime = some tf)
    (htime : b.timeout ≤ now - tf) :
    b.call now true = (.invoked true,
        { b with state := .closed, failureCount := 0,
                 successCount := b.successCount + 1 }) ∧
      b.call now false = (.invoked false,
        { b with state := .opened, failureCount := b.failureCount + 1,
                 lastFailureTime := some now }) := by
  have hreset : b.shouldAttemptReset now = true := by
    rw [CircuitBreaker.shouldAttemptReset, hlf]
    simpa using htime
  constructor
  · rw [CircuitBreaker.call, if_pos hst, hreset]
    simp [CircuitBreaker.onSuccess]
  · rw [CircuitBreaker.call, if_pos hst, hreset]
    simp [CircuitBreaker.onFailure]

/-- **C2**: starting CLOSED, `failure_threshold` consecutive failed calls are all
let through and leave the breaker OPEN; while less than `timeout` has elapsed
since the last failure every call (whatever its outcome would be) is rejected
with `CircuitBreakerOpenError` without invoking the wrapped function and leaves
the breaker unchanged; the first call attempted after `timeout` has elapsed is
invoked as a HALF_OPEN probe: a successful probe returns the breaker to CLOSED
with `failure_count = 0`, a failed probe returns it to OPEN. -/
theorem c2_circuit_breaker (threshold : ℕ) (timeout : ℚ) (ts : List ℚ)
    (hlen : ts.length = threshold) (hne : ts ≠ []) :
    (((CircuitBreaker.init threshold timeout).callSeq
        (ts.map fun t => (t, false))).1 =
      ts.map (fun _ => CallResult.invoked false)) ∧
    (((CircuitBreaker.init threshold timeout).callSeq
        (ts.map fun t => (t, false))).2 =
      { CircuitBreaker.init threshold timeout with
          state := .opened, failureCount := threshold,
          lastFailureTime := some (ts.getLast hne) }) ∧
    (∀ attempts : List (ℚ × Bool),
      (∀ a ∈ attempts, a.1 - ts.getLast hne < timeout) →
      ((((CircuitBreaker.init threshold timeout).callSeq
            (ts.map fun t => (t, false))).2.callSeq attempts).1 =
          attempts.map (fun _ => CallResult.rejected) ∧
        ((((CircuitBreaker.init threshold timeout).callSeq
            (ts.map fun t => (t, false))).2.callSeq attempts).2 =
          ((CircuitBreaker.init threshold timeout).callSeq
            (ts.map fun t => (t, false))).2))) ∧
    (∀ now : ℚ, timeout ≤ now - ts.getLast hne →
      (((CircuitBreaker.init threshold timeout).callSeq
          (ts.map fun t => (t, false))).2.call now true =
        (.invoked true,
          { ((CircuitBreaker.init threshold timeout).callSeq
              (ts.map fun t => (t, false))).2 with
              state := .closed, failureCount := 0,
              successCount := (((CircuitBreaker.init threshold timeout).callSeq
                (ts.map fun t => (t, false))).2).successCount + 1 })) ∧
      (((CircuitBreaker.init threshold timeout).callSeq
          (ts.map fun t => (t, false))).2.call now false =
        (.invoked false,
          { ((CircuitBreaker.init threshold timeout).callSeq
              (ts.map fun t => (t, false))).2 with
              state := .opened,
              failureCount := (((CircuitBreaker.init threshold timeout).callSeq
                (ts.map fun t => (t, false))).2).failureCount + 1,
              lastFailureTime := some now }))) := by
  have hrun := callSeq_fail_run ts (CircuitBreaker.init threshold timeout)
    rfl (by simpa [CircuitBreaker.init] using hlen) hne
  refine ⟨hrun.1, hrun.2, ?_, ?_⟩
  · intro attempts hall
    rw [hrun.2]
    exact callSeq_rejected_of_open _ (ts.getLast hne) rfl rfl attempts hall
  · intro now hnow
    rw [hrun.2]
    exact call_probe_of_open _ (ts.getLast hne) now rfl rfl hnow

/-- Witness for C2: threshold 3, timeout 30 s, failures at t = 0, 1, 2. -/
theorem c2_circuit_breaker_witness :
    (((CircuitBreaker.init 3 30).callSeq
        (([0, 1, 2] : List ℚ).map fun t => (t, false))).1 =
      ([0, 1, 2] : List ℚ).map (fun _ => CallResult.invoked false)) ∧
    (((CircuitBreaker.init 3 30).callSeq
        (([0, 1, 2] : List ℚ).map fun t => (t, false))).2 =
      { CircuitBreaker.init 3 30 with
          state := .opened, failureCount := 3,
          lastFailureTime := some (([0, 1, 2] : List ℚ).getLast (by simp)) }) ∧
    (∀ attempts : List (ℚ × Bool),
      (∀ a ∈ attempts, a.1 - ([0, 1, 2] : List ℚ).getLast (by simp) < 30) →
      ((((CircuitBreaker.init 3 30).callSeq
            (([0, 1, 2] : List ℚ).map fun t => (t, false))).2.callSeq attempts).1 =
          attempts.map (fun _ => CallResult.rejected) ∧
        ((((CircuitBreaker.init 3 30).callSeq
            (([0, 1, 2] : List ℚ).map fun t => (t, false))).2.callSeq attempts).2 =
          ((CircuitBreaker.init 3 30).callSeq
            (([0, 1, 2] : List ℚ).map fun t => (t, false))).2))) ∧
    (∀ now : ℚ, 30 ≤ now - ([0, 1, 2] : List ℚ).getLast (by simp) →
      (((CircuitBreaker.init 3 30).callSeq
          (([0, 1, 2] : List ℚ).map fun t => (t, false))).2.call now true =
        (.invoked true,
          { ((CircuitBreaker.init 3 30).callSeq
              (([0, 1, 2] : List ℚ).map fun t => (t, false))).2 with
              state := .closed, failureCount := 0,
              successCount := (((CircuitBreaker.init 3 30).callSeq
                (([0, 1, 2] : List ℚ).map fun t => (t, false))).2).successCount + 1 })) ∧
      (((CircuitBreaker.init 3 30).callSeq
          (([0, 1, 2] : List ℚ).map fun t => (t, false))).2.call now false =
        (.invoked false,
          { ((CircuitBreaker.init 3 30).callSeq
              (([0, 1, 2] : List ℚ).map fun t => (t, false))).2 with
              state := .opened,
              failureCount := (((CircuitBreaker.init 3 30).callSeq
                (([0, 1, 2] : List ℚ).map fun t => (t, false))).2).failureCount + 1,
              lastFailureTime := some now }))) :=
  c2_circuit_breaker 3 30 [0, 1, 2] (by simp) (by simp)

/-! ### RateLimiter (`wled_context_effects/rate_limiter.py`, class `RateLimiter`)

The asyncio clock becomes an explicit rational-valued `now` per admission
check; `self._timestamps` becomes an explicit list (oldest first, appended at
the back, exactly like the deque). -/

/-- `RateLimiter.__init__` configuration. -/
structure RateLimiter where
  maxCommands : ℕ
  window : ℚ

/-- The lazy eviction at the top of each admission check:
`while self._timestamps and self._timestamps[0] < current_time - self.window:
self._timestamps.popleft()`. -/
def RateLimiter.purge (rl : RateLimiter) (timestamps : List ℚ) (now : ℚ) : List ℚ :=
  timestamps.dropWhile (fun t => t < now - rl.window)

/-- One admission check of `RateLimiter.acquire` at time `now`: after the lazy
eviction the call proceeds (recording `now`) iff fewer than `max_commands`
timestamps remain in the window; otherwise the caller must wait. -/
def RateLimiter.acquireStep (rl : RateLimiter) (timestamps : List ℚ) (now : ℚ) :
    Bool × List ℚ :=
  let purged := rl.purge timestamps now
  if purged.length < rl.maxCommands then (true, purged ++ [now]) else (false, purged)

/-- The moment until which a blocked `acquire` sleeps:
`wait_time = (oldest + window) - current_time`, i.e. it wakes at
`oldest + window` (0.1 s from now if the deque is somehow empty). -/
def RateLimiter.waitDeadline (rl : RateLimiter) (purged : List ℚ) (now : ℚ) : ℚ :=
  match purged with
  | [] => now + 1/10
  | oldest :: _ => oldest + rl.window

/-- A sequence of `acquire` admission checks at the given times, threading the
timestamp deque; records for each call whether it was admitted immediately. -/
def RateLimiter.acquireRun (rl : RateLimiter) (timestamps : List ℚ) :
    List ℚ → List Bool × List ℚ
  | [] => ([], timestamps)
  | now :: rest =>
      let step := rl.acquireStep timestamps now
      let tail := rl.acquireRun step.2 rest
      (step.1 :: tail.1, tail.2)

theorem dropWhile_eq_self_of_head {p : ℚ → Bool} {l : List ℚ}
    (h : ∀ x ∈ l.head?, p x = false) : l.dropWhile p = l := by
  cases l with
  | nil => rfl
  | cons a t =>
    rw [List.dropWhile_cons, h a rfl]
    simp

theorem acquireRun_admits_all (rl : RateLimiter) :
    ∀ (pending acc : List ℚ),
      (∀ x ∈ acc, ∀ y ∈ pending, y - x < rl.window) →
      (∀ x ∈ pending, ∀ y ∈ pending, y - x < rl.window) →
      acc.length + pending.length ≤ rl.maxCommands →
      rl.acquireRun acc pending = (pending.map fun _ => true, acc ++ pending) := by
  intro pending
  induction pending with
  | nil => intro acc _ _ _; simp [RateLimiter.acquireRun]
  | cons t rest ih =>
    intro acc hacc hpend hlen
    have hpurge : rl.purge acc t = acc := by
      cases acc with
      | nil => rfl
      | cons a acc' =>
        apply dropWhile_eq_self_of_head
        intro x hx
        simp only [List.head?_cons, Option.mem_def, Option.some.injEq] at hx
        subst hx
        have h1 : t - a < rl.window := hacc a (by simp) t (by simp)
        simp only [decide_eq_false_iff_not, not_lt]
        linarith
    have hstep : rl.acquireStep acc t = (true, acc ++ [t]) := by
      rw [RateLimiter.acquireStep]
      simp only [hpurge]
      rw [if_pos (by simp at hlen ⊢; omega)]
    have ihr := ih (acc ++ [t])
      (by
        intro x hx y hy
        rcases List.mem_append.mp hx with hx1 | hx1
        · exact hacc x hx1 y (by simp [hy])
        · simp at hx1
          subst hx1
          exact hpend x (by simp) y (by simp [hy]))
      (fun x hx y hy => hpend x (by simp [hx]) y (by simp [hy]))
      (by simp at hlen ⊢; omega)
    simp only [RateLimiter.acquireRun, hstep, ihr, List.map_cons]
    simp

theorem acquireRun_spaced (rl : RateLimiter) (hm : 1 ≤ rl.maxCommands) :
    ∀ (pending acc : List ℚ),
      (∀ a ∈ acc, ∀ y ∈ pending, a + rl.window < y) →
      pending.Pairwise (fun a b => a + rl.window < b) →
      (rl.acquireRun acc pending).1 = pending.map fun _ => true := by
  intro pending
  induction pending with
  | nil => intro acc _ _; simp [RateLimiter.acquireRun]
  | cons t rest ih =>
    intro acc hacc hpw
    have hpurge : rl.purge acc t = [] := by
      rw [RateLimiter.purge, List.dropWhile_eq_nil_iff]
      intro x hx
      have := hacc x hx t (by simp)
      simp
      linarith
    have hstep : rl.acquireStep acc t = (true, [t]) := by
      rw [RateLimiter.acquireStep]
      simp only [hpurge]
      rw [if_pos (by simpa using hm)]
      simp
    rw [List.pairwise_cons] at hpw
    have ihr := ih [t]
      (by
        intro a ha y hy
        simp at ha
        subst ha
        exact hpw.1 y hy)
      hpw.2
    simp only [RateLimiter.acquireRun, hstep, List.map_cons]
    simp [ihr]

theorem acquireStep_blocked (rl : RateLimiter) (ts : List ℚ) (now : ℚ)
    (hne : ts ≠ []) (hlen : rl.maxCommands ≤ ts.length)
    (hnow : now ≤ ts.head hne + rl.window) :
    rl.acquireStep ts now = (false, ts) ∧
      rl.waitDeadline (rl.purge ts now) now = ts.head hne + rl.window := by
  have hpurge : rl.purge ts now = ts := by
    apply dropWhile_eq_self_of_head
    intro x hx
    rw [List.head?_eq_head hne] at hx
    simp at hx
    subst hx
    simp
    linarith
  refine ⟨?_, ?_⟩
  · rw [RateLimiter.acquireStep]
    simp only [hpurge]
    rw [if_neg (by omega)]
  · rw [hpurge]
    cases ts with
    | nil => exact absurd rfl hne
    | cons a t => rfl

/-- **C3**: with `max_commands` admissions recorded at times `ts` that all lie
within less than `window` of one another (so all are admitted immediately and
the deque holds exactly `ts`), the next `acquire` at any time up to
`oldest + window` is not admitted and computes a sleep deadline of exactly
`oldest + window` — it cannot return before the oldest timestamp leaves the
trailing window.  And any sequence of calls pairwise spaced by more than
`window` is admitted immediately at every step, never waiting. -/
theorem c3_rate_limiter (m : ℕ) (w : ℚ) (ts : List ℚ)
    (hm : 1 ≤ m) (_hw : 0 ≤ w) (hlen : ts.length = m) (hne : ts ≠ [])
    (hspread : ∀ x ∈ ts, ∀ y ∈ ts, y - x < w) :
    (RateLimiter.mk m w).acquireRun [] ts = (ts.map fun _ => true, ts) ∧
    (∀ now : ℚ, now ≤ ts.head hne + w →
      (RateLimiter.mk m w).acquireStep ts now = (false, ts) ∧
        (RateLimiter.mk m w).waitDeadline ((RateLimiter.mk m w).purge ts now) now =
          ts.head hne + w) ∧
    (∀ spaced : List ℚ, spaced.Pairwise (fun a b => a + w < b) →
      ((RateLimiter.mk m w).acquireRun [] spaced).1 = spaced.map fun _ => true) := by
  refine ⟨?_, ?_, ?_⟩
  · have := acquireRun_admits_all (RateLimiter.mk m w) ts []
      (by intro x hx; simp at hx) hspread (by simp [hlen])
    simpa using this
  · intro now hnow
    exact acquireStep_blocked (RateLimiter.mk m w) ts now hne (by simp [hlen]) hnow
  · intro spaced hpw
    exact acquireRun_spaced (RateLimiter.mk m w) hm spaced []
      (by intro a ha; simp at ha) hpw

/-- Witness for C3: `max_commands = 5`, `window = 1.0`, five admissions at
t = 0, 0.1, 0.2, 0.3, 0.4 (the spec scenario of five immediate calls). -/
theorem c3_rate_limiter_witness :
    (RateLimiter.mk 5 1).acquireRun [] ([0, 1/10, 2/10, 3/10, 4/10] : List ℚ) =
      (([0, 1/10, 2/10, 3/10, 4/10] : List ℚ).map fun _ => true,
        ([0, 1/10, 2/10, 3/10, 4/10] : List ℚ)) ∧
    (∀ now : ℚ,
      now ≤ ([0, 1/10, 2/10, 3/10, 4/10] : List ℚ).head (by simp) + 1 →
      (RateLimiter.mk 5 1).acquireStep ([0, 1/10, 2/10, 3/10, 4/10] : List ℚ) now =
          (false, ([0, 1/10, 2/10, 3/10, 4/10] : List ℚ)) ∧
        (RateLimiter.mk 5 1).waitDeadline
            ((RateLimiter.mk 5 1).purge ([0, 1/10, 2/10, 3/10, 4/10] : List ℚ) now) now =
          ([0, 1/10, 2/10, 3/10, 4/10] : List ℚ).head (by simp) + 1) ∧
    (∀ spaced : List ℚ, spaced.Pairwise (fun a b => a + 1 < b) →
      ((RateLimiter.mk 5 1).acquireRun [] spaced).1 = spaced.map fun _ => true) :=
  c3_rate_limiter 5 1 [0, 1/10, 2/10, 3/10, 4/10]
    (by norm_num) (by norm_num) rfl (by simp)
    (by intro x hx y hy; fin_cases hx <;> fin_cases hy <;> norm_num)

/-! ### `_request` retry loop (`wled_json_api.py`, `WLEDJsonApiClient._request`)

Network I/O becomes an oracle `outcome : ℕ → AttemptOutcome` giving what each
attempt of the HTTP request does; the loop is recursion on the remaining
iterations of `for attempt in range(max_retries)`. -/

/-- What one attempt observes: a response with an HTTP status, an
`asyncio.TimeoutError`, or an `aiohttp.ClientError` which is (`true`) or is
not (`false`) a connection-level error
(`ClientConnectionError` / `ServerTimeoutError`). -/
inductive AttemptOutcome
  | response (status : ℕ)
  | timeout
  | clientError (isConnectionLevel : Bool)
deriving DecidableEq

/-- The underlying error attached (`raise ... from err`) to a raised
`WLEDConnectionError`. -/
inductive Cause
  | responseError (status : ℕ)
  | timeoutError
  | clientErrorCause (isConnectionLevel : Bool)
  | noCause
deriving DecidableEq

/-- Result of `_request`: a JSON payload, or `WLEDConnectionError` with its cause. -/
inductive RequestResult
  | ok
  | connError (cause : Cause)
deriving DecidableEq

/-- A run of the retry loop: its result, how many attempts were made, and the
backoff sleeps (in seconds) performed between attempts, in order. -/
structure RequestTrace where
  result : RequestResult
  attemptsMade : ℕ
  sleeps : List ℕ
deriving DecidableEq

/-- What one iteration of `_request`'s loop does with its attempt's outcome.
`hasMoreAttempts` is `attempt < max_retries - 1` (more iterations remain).
`none` means: sleep `2 ** attempt` and retry.  `some r` means: the loop ends
now with result `r`.  Mirrors the source branch for branch: a 5xx response is
retried when more attempts remain, any other non-2xx response raises through
`raise_for_status()` and is caught as a non-connection `ClientError`, hence
wrapped immediately; a timeout is retried when more attempts remain;
a `ClientError` is retried only when it is connection-level
(`ClientConnectionError` / `ServerTimeoutError`) and more attempts remain. -/
def attemptStep (o : AttemptOutcome) (hasMoreAttempts : Bool) : Option RequestResult :=
  match o with
  | .response s =>
      if 500 ≤ s ∧ hasMoreAttempts = true then none
      else if 400 ≤ s then some (.connError (.responseError s))
      else some .ok
  | .timeout =>
      if hasMoreAttempts = true then none
      else some (.connError .timeoutError)
  | .clientError isConn =>
      if isConn = true ∧ hasMoreAttempts = true then none
      else some (.connError (.clientErrorCause isConn))

/-- `_request`'s retry loop, at `for`-index `attempt` with `remaining`
iterations left (`remaining = max_retries - attempt`); the `remaining = 0`
case is the final `raise ... from last_error` fallback after the loop. -/
def requestGo (outcome : ℕ → AttemptOutcome) : ℕ → ℕ → RequestTrace
  | _, 0 => ⟨.connError .noCause, 0, []⟩
  | attempt, remaining + 1 =>
      match attemptStep (outcome attempt) (decide (0 < remaining)) with
      | none =>
          let t := requestGo outcome (attempt + 1) remaining
          ⟨t.result, t.attemptsMade + 1, 2 ^ attempt :: t.sleeps⟩
      | some res => ⟨res, 1, []⟩

/-- `_request` with `max_retries` attempts. -/
def request (outcome : ℕ → AttemptOutcome) (maxRetries : ℕ) : RequestTrace :=
  requestGo outcome 0 maxRetries

/-- The outcomes the retry loop ever retries: 5xx responses, timeouts,
connection-level client errors. -/
def isRetryable : AttemptOutcome → Bool
  | .response s => 500 ≤ s
  | .timeout => true
  | .clientError isConn => isConn

/-- A 4xx client-error response. -/
def AttemptOutcome.is4xx : AttemptOutcome → Bool
  | .response s => 400 ≤ s ∧ s < 500
  | _ => false

/-- The cause `_request` attaches when an attempt with this outcome is the one
that raises. -/
def causeOf : AttemptOutcome → Cause
  | .response s => .responseError s
  | .timeout => .timeoutError
  | .clientError isConn => .clientErrorCause isConn

/-- The result `_request` ends with when an attempt's outcome terminates the
loop (by success, by a non-retryable error, or by being the last attempt):
a response below 400 passes `raise_for_status()` and succeeds, any other
outcome raises the typed error carrying that outcome as its cause. -/
def finalResult : AttemptOutcome → RequestResult
  | .response s => if 400 ≤ s then .connError (.responseError s) else .ok
  | .timeout => .connError .timeoutError
  | .clientError isConn => .connError (.clientErrorCause isConn)

theorem attemptStep_none {o : AttemptOutcome} {b : Bool}
    (h : attemptStep o b = none) : isRetryable o = true ∧ b = true := by
  cases o with
  | response s =>
    rw [attemptStep] at h
    split_ifs at h with h1 h2
    · simpa [isRetryable] using h1
  | timeout =>
    rw [attemptStep] at h
    split_ifs at h with h1
    · simpa [isRetryable] using h1
  | clientError isConn =>
    rw [attemptStep] at h
    split_ifs at h with h1
    · simpa [isRetryable] using h1

theorem attemptStep_connError {o : AttemptOutcome} {b : Bool} {c : Cause}
    (h : attemptStep o b = some (.connError c)) : c = causeOf o := by
  cases o with
  | response s =>
    rw [attemptStep] at h
    split_ifs at h with h1 h2
    · simp at h
      exact h.symm.trans (by rw [causeOf])
    · simp at h
  | timeout =>
    rw [attemptStep] at h
    split_ifs at h with h1
    simp at h
    exact h.symm.trans (by rw [causeOf])
  | clientError isConn =>
    rw [attemptStep] at h
    split_ifs at h with h1
    simp at h
    exact h.symm.trans (by rw [causeOf])

theorem attemptStep_some_finalResult {o : AttemptOutcome} {b : Bool}
    {res : RequestResult} (h : attemptStep o b = some res) : res = finalResult o := by
  cases o with
  | response s =>
    rw [attemptStep] at h
    split_ifs at h with h1 h2
    · simp only [Option.some.injEq] at h
      subst h
      rw [finalResult, if_pos h2]
    · simp only [Option.some.injEq] at h
      subst h
      rw [finalResult, if_neg h2]
  | timeout =>
    rw [attemptStep] at h
    split_ifs at h with h1
    simp only [Option.some.injEq] at h
    subst h
    rfl
  | clientError isConn =>
    rw [attemptStep] at h
    split_ifs at h with h1
    simp only [Option.some.injEq] at h
    subst h
    rfl

theorem attemptStep_of_retryable {o : AttemptOutcome} (h : isRetryable o = true) :
    attemptStep o true = none := by
  cases o with
  | response s =>
    have hs : 500 ≤ s := by simpa [isRetryable] using h
    rw [attemptStep, if_pos ⟨hs, rfl⟩]
  | timeout =>
    rw [attemptStep, if_pos rfl]
  | clientError isConn =>
    have hb : isConn = true := by simpa [isRetryable] using h
    rw [attemptStep, if_pos ⟨hb, rfl⟩]

theorem finalResult_of_retryable {o : AttemptOutcome} (h : isRetryable o = true) :
    finalResult o = .connError (causeOf o) := by
  cases o with
  | response s =>
    have hs : 500 ≤ s := by simpa [isRetryable] using h
    rw [finalResult, causeOf, if_pos (by omega)]
  | timeout => rfl
  | clientError isConn => rfl

theorem sleeps_shift (a n : ℕ) (hn : 1 ≤ n) :
    (2 ^ a :: (List.range (n - 1)).map (fun j => 2 ^ (a + 1 + j))) =
      (List.range n).map (fun j => 2 ^ (a + j)) := by
  obtain ⟨m, rfl⟩ : ∃ m, n = m + 1 := ⟨n - 1, by omega⟩
  rw [List.range_succ_eq_map]
  simp only [Nat.add_sub_cancel, List.map_cons, List.map_map, Nat.add_zero]
  congr 1
  apply List.map_congr_left
  intro j _
  simp only [Function.comp]
  congr 1
  omega

theorem requestGo_spec (outcome : ℕ → AttemptOutcome) :
    ∀ (r a : ℕ), 1 ≤ r →
      (1 ≤ (requestGo outcome a r).attemptsMade ∧
        (requestGo outcome a r).attemptsMade ≤ r) ∧
      (∀ j, j + 1 < (requestGo outcome a r).attemptsMade →
        isRetryable (outcome (a + j)) = true) ∧
      ((requestGo outcome a r).sleeps =
        (List.range ((requestGo outcome a r).attemptsMade - 1)).map
          (fun j => 2 ^ (a + j))) ∧
      (∀ c, (requestGo outcome a r).result = .connError c →
        c = causeOf (outcome (a + ((requestGo outcome a r).attemptsMade - 1)))) ∧
      ((requestGo outcome a r).result =
        finalResult (outcome (a + ((requestGo outcome a r).attemptsMade - 1)))) ∧
      (∀ j, j + 1 < r → j < (requestGo outcome a r).attemptsMade →
        isRetryable (outcome (a + j)) = true →
        j + 1 < (requestGo outcome a r).attemptsMade) := by
  intro r
  induction r with
  | zero => intro a h; omega
  | succ r' ih =>
    intro a _
    cases hstep : attemptStep (outcome a) (decide (0 < r')) with
    | some res =>
      have hgo : requestGo outcome a (r' + 1) = ⟨res, 1, []⟩ := by
        rw [requestGo, hstep]
      rw [hgo]
      dsimp only
      refine ⟨⟨le_refl 1, by omega⟩, by intro j hj; omega, by simp, ?_, ?_, ?_⟩
      · intro c hc
        simp only [Nat.sub_self, Nat.add_zero]
        cases hc
        exact attemptStep_connError hstep
      · simp only [Nat.sub_self, Nat.add_zero]
        exact attemptStep_some_finalResult hstep
      · intro j hjr hjlt hret
        have hj0 : j = 0 := by omega
        subst hj0
        rw [Nat.add_zero] at hret
        have hr0 : 0 < r' := by omega
        rw [decide_eq_true hr0, attemptStep_of_retryable hret] at hstep
        simp at hstep
    | none =>
      have hmore : 0 < r' := by
        have := (attemptStep_none hstep).2
        simpa using this
      have hgo : requestGo outcome a (r' + 1) =
          ⟨(requestGo outcome (a + 1) r').result,
            (requestGo outcome (a + 1) r').attemptsMade + 1,
            2 ^ a :: (requestGo outcome (a + 1) r').sleeps⟩ := by
        rw [requestGo, hstep]
      have ihr := ih (a + 1) (by omega)
      rw [hgo]
      dsimp only
      have h1 := ihr.1.1
      have h2 := ihr.1.2
      refine ⟨⟨by omega, by omega⟩, ?_, ?_, ?_, ?_, ?_⟩
      · intro j hj
        cases j with
        | zero =>
          simpa using (attemptStep_none hstep).1
        | succ j' =>
          have := ihr.2.1 j' (by omega)
          simpa [Nat.add_assoc, Nat.add_comm 1 j'] using this
      · simp only [Nat.add_sub_cancel]
        rw [ihr.2.2.1]
        exact sleeps_shift a _ ihr.1.1
      · intro c hc
        have := ihr.2.2.2.1 c hc
        rw [this]
        congr 2
        simp only [Nat.add_sub_cancel]
        omega
      · have := ihr.2.2.2.2.1
        rw [this]
        congr 2
        simp only [Nat.add_sub_cancel]
        omega
      · intro j hjr hjlt hret
        cases j with
        | zero => omega
        | succ j' =>
          have hret' : isRetryable (outcome (a + 1 + j')) = true := by
            rw [show a + 1 + j' = a + (j' + 1) by omega]
            exact hret
          have := ihr.2.2.2.2.2 j' (by omega) (by omega) hret'
          omega

/-- **C4**: `_request` makes between 1 and `max_retries` attempts; every attempt
that is followed by another was retryable (a 5xx response, a timeout, or a
connection-level error) — in particular an attempt whose response is a 4xx
client error is always the last, never retried; conversely, a retryable attempt
that is not the final permitted one *is* retried (another attempt follows); the
sleeps between attempts are exactly `2 ** attempt` seconds in order; the call's
result is determined by its last attempt (a sub-400 response succeeds,
everything else raises the typed `WLEDConnectionError` whose attached cause is
the last attempt's underlying error); and when every attempt's outcome is
retryable the loop exhausts all `max_retries` attempts and then raises the
typed error carrying the final attempt's cause. -/
theorem c4_request_retry (outcome : ℕ → AttemptOutcome) (maxRetries : ℕ)
    (h : 1 ≤ maxRetries) :
    (1 ≤ (request outcome maxRetries).attemptsMade ∧
      (request outcome maxRetries).attemptsMade ≤ maxRetries) ∧
    (∀ k, k + 1 < (request outcome maxRetries).attemptsMade →
      isRetryable (outcome k) = true) ∧
    (∀ k, k < (request outcome maxRetries).attemptsMade →
      (outcome k).is4xx = true → k + 1 = (request outcome maxRetries).attemptsMade) ∧
    (∀ k, k + 1 < maxRetries → k < (request outcome maxRetries).attemptsMade →
      isRetryable (outcome k) = true →
      k + 1 < (request outcome maxRetries).attemptsMade) ∧
    ((request outcome maxRetries).sleeps =
      (List.range ((request outcome maxRetries).attemptsMade - 1)).map
        (fun k => 2 ^ k)) ∧
    ((request outcome maxRetries).result =
      finalResult (outcome ((request outcome maxRetries).attemptsMade - 1))) ∧
    (∀ c, (request outcome maxRetries).result = .connError c →
      c = causeOf (outcome ((request outcome maxRetries).attemptsMade - 1))) ∧
    ((∀ k, k < maxRetries → isRetryable (outcome k) = true) →
      (request outcome maxRetries).attemptsMade = maxRetries ∧
      (request outcome maxRetries).result =
        .connError (causeOf (outcome (maxRetries - 1)))) := by
  have hs := requestGo_spec outcome maxRetries 0 h
  refine ⟨hs.1, ?_, ?_, ?_, ?_, ?_, ?_, ?_⟩
  · intro k hk
    simpa using hs.2.1 k (by simpa [request] using hk)
  · intro k hk h4
    by_contra hne
    have hretry := hs.2.1 k (by simp only [request] at *; omega)
    simp only [Nat.zero_add] at hretry
    cases ho : outcome k with
    | response s =>
      rw [ho] at hretry h4
      simp [isRetryable] at hretry
      simp [AttemptOutcome.is4xx] at h4
      omega
    | timeout => rw [ho] at h4; simp [AttemptOutcome.is4xx] at h4
    | clientError b => rw [ho] at h4; simp [AttemptOutcome.is4xx] at h4
  · intro k hk1 hk2 hk3
    have := hs.2.2.2.2.2 k hk1 (by simpa [request] using hk2)
      (by simpa using hk3)
    simpa [request] using this
  · simpa [request] using hs.2.2.1
  · simpa using hs.2.2.2.2.1
  · intro c hc
    simpa using hs.2.2.2.1 c hc
  · intro hall
    have hA1 := hs.1.1
    have hA2 := hs.1.2
    have heq : (request outcome maxRetries).attemptsMade = maxRetries := by
      by_contra hne
      have hlt : (requestGo outcome 0 maxRetries).attemptsMade < maxRetries := by
        simp only [request] at hne
        omega
      have hF := hs.2.2.2.2.2 ((requestGo outcome 0 maxRetries).attemptsMade - 1)
        (by omega) (by omega)
        (by rw [Nat.zero_add]; exact hall _ (by omega))
      omega
    refine ⟨heq, ?_⟩
    have hE := hs.2.2.2.2.1
    simp only [Nat.zero_add] at hE
    have heq' : (requestGo outcome 0 maxRetries).attemptsMade = maxRetries := heq
    rw [request, hE, heq', finalResult_of_retryable (hall (maxRetries - 1) (by omega))]

/-- Witness for C4: first attempt times out, second gets HTTP 200,
`max_retries = 3`. -/
theorem c4_request_retry_witness :
    (1 ≤ (request (fun k => if k = 0 then .timeout else .response 200) 3).attemptsMade ∧
      (request (fun k => if k = 0 then .timeout else .response 200) 3).attemptsMade ≤ 3) ∧
    (∀ k,
      k + 1 < (request (fun k => if k = 0 then .timeout else .response 200) 3).attemptsMade →
      isRetryable ((fun k => if k = 0 then AttemptOutcome.timeout else .response 200) k) =
        true) ∧
    (∀ k,
      k < (request (fun k => if k = 0 then .timeout else .response 200) 3).attemptsMade →
      ((fun k => if k = 0 then AttemptOutcome.timeout else .response 200) k).is4xx = true →
      k + 1 = (request (fun k => if k = 0 then .timeout else .response 200) 3).attemptsMade) ∧
    (∀ k, k + 1 < 3 →
      k < (request (fun k => if k = 0 then .timeout else .response 200) 3).attemptsMade →
      isRetryable ((fun k => if k = 0 then AttemptOutcome.timeout else .response 200) k) =
        true →
      k + 1 < (request (fun k => if k = 0 then .timeout else .response 200) 3).attemptsMade) ∧
    ((request (fun k => if k = 0 then .timeout else .response 200) 3).sleeps =
      (List.range
        ((request (fun k => if k = 0 then .timeout else .response 200) 3).attemptsMade - 1)).map
        (fun k => 2 ^ k)) ∧
    ((request (fun k => if k = 0 then .timeout else .response 200) 3).result =
      finalResult ((fun k => if k = 0 then AttemptOutcome.timeout else .response 200)
        ((request (fun k => if k = 0 then .timeout else .response 200) 3).attemptsMade - 1))) ∧
    (∀ c,
      (request (fun k => if k = 0 then .timeout else .response 200) 3).result = .connError c →
      c = causeOf ((fun k => if k = 0 then AttemptOutcome.timeout else .response 200)
        ((request (fun k => if k = 0 then .timeout else .response 200) 3).attemptsMade - 1))) ∧
    ((∀ k, k < 3 →
        isRetryable ((fun k => if k = 0 then AttemptOutcome.timeout else .response 200) k) =
          true) →
      (request (fun k => if k = 0 then .timeout else .response 200) 3).attemptsMade = 3 ∧
      (request (fun k => if k = 0 then .timeout else .response 200) 3).result =
        .connError (causeOf
          ((fun k => if k = 0 then AttemptOutcome.timeout else .response 200) (3 - 1)))) :=
  c4_request_retry (fun k => if k = 0 then .timeout else .response 200) 3 (by decide)

/-! ### Per-LED batching (`wled_json_api.py`,
`WLEDJsonApiClient.set_individual_leds` / `_set_leds_batched`)

Modelled as the list of `"i"`-array payloads of the `update_segment` POST
requests the method issues, in order. -/

/-- An RGB triple with natural-number channels (0..255). -/
abbrev RGB := ℕ × ℕ × ℕ

/-- One uppercase hex digit, as produced by Python `"%02X"` formatting. -/
def hexDigit (n : ℕ) : Char :=
  if n < 10 then Char.ofNat (48 + n) else Char.ofNat (55 + n)

/-- `WLEDJsonApiClient._color_to_hex`: `f"{r:02X}{g:02X}{b:02X}"`
(channels 0..255, two digits each). -/
def colorToHex (c : RGB) : String :=
  String.mk [hexDigit (c.1 / 16), hexDigit (c.1 % 16),
             hexDigit (c.2.1 / 16), hexDigit (c.2.1 % 16),
             hexDigit (c.2.2 / 16), hexDigit (c.2.2 % 16)]

/-- `WLEDJsonApiClient._estimate_buffer_size`:
`int((20 + len(led_data) * 10) * 1.2)`.  `20 + 10·n` is divisible by 5, so the
20 % margin is exact: the float computation yields the integer `12·n + 24`,
which the integer-division form below reproduces. -/
def estimateBufferSize (numElements : ℕ) : ℕ :=
  (20 + numElements * 10) * 12 / 10

/-- An element of the JSON `"i"` array: an LED index or a hex color string. -/
inductive PayloadElem
  | idx (n : ℕ)
  | hex (s : String)
deriving DecidableEq

/-- The batch loop of `_set_leds_batched`:
`for i in range(0, total_leds, batch_size)` with
`batch = hex_colors[i:i+batch_size]` and `batch_start = start_index + i`;
yields each batch's `(batch_start, batch)` in order.  `bs1` is
`batch_size - 1` (the loop needs `batch_size = bs1 + 1 ≥ 1`). -/
def batchGo (bs1 : ℕ) (off : ℕ) : List String → List (ℕ × List String)
  | [] => []
  | h :: t => (off, h :: t.take bs1) :: batchGo bs1 (off + (bs1 + 1)) (t.drop bs1)
termination_by l => l.length
decreasing_by simp [List.length_drop]; omega

/-- `WLEDJsonApiClient._set_leds_batched`:
`batch_size = max(1, int((max_buffer * 0.8 - 20) / bytes_per_led))` with
`bytes_per_led = 10` (the float arithmetic is exact up to the final
truncation, giving the nested integer-division form), then one request per
batch with payload `[batch_start] + batch`. -/
def setLedsBatched (hexColors : List String) (startIndex maxBuffer : ℕ) :
    List (List PayloadElem) :=
  let batchSize := max 1 ((maxBuffer * 8 / 10 - 20) / 10)
  (batchGo (batchSize - 1) startIndex hexColors).map
    (fun b => PayloadElem.idx b.1 :: b.2.map PayloadElem.hex)

/-- `WLEDJsonApiClient.set_individual_leds`: empty input sends nothing;
otherwise the payload is the optional leading start offset followed by the hex
colors, sent in one request if the size estimate fits the device buffer and
split through `_set_leds_batched` if it does not. -/
def setIndividualLeds (colors : List RGB) (startIndex maxBuffer : ℕ) :
    List (List PayloadElem) :=
  if colors = [] then []
  else
    let hexColors := colors.map colorToHex
    let ledData :=
      (if 0 < startIndex then [PayloadElem.idx startIndex] else []) ++
        hexColors.map PayloadElem.hex
    if maxBuffer < estimateBufferSize ledData.length then
      setLedsBatched hexColors startIndex maxBuffer
    else [ledData]

/-- The segment-relative LED indices a payload addresses: a leading integer is
the start offset of the following contiguous hex-color run; with no leading
integer the run starts at index 0. -/
def payloadIndices : List PayloadElem → List ℕ
  | .idx off :: rest => List.range' off rest.length
  | rest => List.range' 0 rest.length

/-- The hex color strings a payload carries, in order. -/
def payloadHexes : List PayloadElem → List String
  | [] => []
  | .idx _ :: rest => payloadHexes rest
  | .hex s :: rest => s :: payloadHexes rest

theorem estimateBufferSize_eq (n : ℕ) : estimateBufferSize n = 24 + 12 * n := by
  rw [estimateBufferSize]
  omega

theorem batchGo_cover (bs1 : ℕ) :
    ∀ (n : ℕ) (l : List String), l.length ≤ n → ∀ off,
      ((batchGo bs1 off l).map (fun b => List.range' b.1 b.2.length)).flatten =
        List.range' off l.length := by
  intro n
  induction n with
  | zero =>
    intro l hl off
    have : l = [] := List.eq_nil_of_length_eq_zero (by omega)
    subst this
    rw [batchGo]
    rfl
  | succ n ih =>
    intro l hl off
    cases l with
    | nil =>
      rw [batchGo]
      rfl
    | cons h t =>
      rw [batchGo]
      simp only [List.map_cons, List.flatten_cons]
      rw [ih (t.drop bs1) (by simp at hl ⊢; omega) (off + (bs1 + 1))]
      simp only [List.length_cons, List.length_take, List.length_drop]
      by_cases hcase : t.length ≤ bs1
      · have h1 : min bs1 t.length = t.length := by omega
        have h2 : t.length - bs1 = 0 := by omega
        rw [h1, h2]
        simp
      · have h1 : min bs1 t.length = bs1 := by omega
        rw [h1]
        calc List.range' off (bs1 + 1) ++ List.range' (off + (bs1 + 1)) (t.length - bs1)
            = List.range' off (t.length - bs1 + (bs1 + 1)) :=
              List.range'_append_1 off (bs1 + 1) (t.length - bs1)
          _ = List.range' off (t.length + 1) := by congr 1; omega

theorem batchGo_concat (bs1 : ℕ) :
    ∀ (n : ℕ) (l : List String), l.length ≤ n → ∀ off,
      ((batchGo bs1 off l).map Prod.snd).flatten = l := by
  intro n
  induction n with
  | zero =>
    intro l hl off
    have : l = [] := List.eq_nil_of_length_eq_zero (by omega)
    subst this
    rw [batchGo]
    rfl
  | succ n ih =>
    intro l hl off
    cases l with
    | nil =>
      rw [batchGo]
      rfl
    | cons h t =>
      rw [batchGo]
      simp only [List.map_cons, List.flatten_cons]
      rw [ih (t.drop bs1) (by simp at hl ⊢; omega) (off + (bs1 + 1))]
      simp [List.take_append_drop]

theorem batchGo_ne_nil (bs1 off : ℕ) (l : List String) (h : l ≠ []) :
    batchGo bs1 off l ≠ [] := by
  cases l with
  | nil => exact absurd rfl h
  | cons a t =>
    rw [batchGo]
    simp

theorem batchGo_two (bs1 off : ℕ) (l : List String) (h : bs1 + 1 < l.length) :
    1 < (batchGo bs1 off l).length := by
  cases l with
  | nil => simp at h
  | cons a t =>
    rw [batchGo]
    have hne : t.drop bs1 ≠ [] := by
      intro hd
      have := congrArg List.length hd
      simp at this h
      omega
    have := batchGo_ne_nil bs1 (off + (bs1 + 1)) (t.drop bs1) hne
    simp only [List.length_cons]
    have : 0 < (batchGo bs1 (off + (bs1 + 1)) (t.drop bs1)).length :=
      List.length_pos.mpr this
    omega

theorem payloadIndices_batch (off : ℕ) (hexs : List String) :
    payloadIndices (PayloadElem.idx off :: hexs.map PayloadElem.hex) =
      List.range' off hexs.length := by
  rw [payloadIndices]
  simp

theorem payloadHexes_map_hex (hexs : List String) :
    payloadHexes (hexs.map PayloadElem.hex) = hexs := by
  induction hexs with
  | nil => rfl
  | cons s tl ih =>
    simp only [List.map_cons, payloadHexes]
    rw [ih]

theorem payloadHexes_batch (off : ℕ) (hexs : List String) :
    payloadHexes (PayloadElem.idx off :: hexs.map PayloadElem.hex) = hexs := by
  rw [payloadHexes]
  exact payloadHexes_map_hex hexs

/-- **C1**: for a non-empty color list whose estimated payload exceeds the
device's buffer capacity (10000 bytes for ESP8266-class devices, 24000 for
ESP32), `set_individual_leds` issues more than one request; each request's
payload is a leading start offset followed by that batch's hex colors; the
LED index runs of the requests, concatenated in order, are exactly
`start_index, ..., start_index + len(colors) - 1` — the input range covered
once, in order, with no gaps and no duplicates — and the concatenated hex
colors are exactly the input colors' hex encodings. -/
theorem c1_set_individual_leds_batching (colors : List RGB)
    (startIndex maxBuffer : ℕ) (hne : colors ≠ [])
    (hbuf : maxBuffer = 10000 ∨ maxBuffer = 24000)
    (hover : maxBuffer <
      estimateBufferSize ((if 0 < startIndex then 1 else 0) + colors.length)) :
    1 < (setIndividualLeds colors startIndex maxBuffer).length ∧
    ((setIndividualLeds colors startIndex maxBuffer).map payloadIndices).flatten =
      List.range' startIndex colors.length ∧
    ((setIndividualLeds colors startIndex maxBuffer).map payloadHexes).flatten =
      colors.map colorToHex ∧
    (∀ req ∈ setIndividualLeds colors startIndex maxBuffer,
      ∃ (off : ℕ) (hexs : List String),
        req = PayloadElem.idx off :: hexs.map PayloadElem.hex) := by
  have hlen : ((if 0 < startIndex then [PayloadElem.idx startIndex] else []) ++
      (colors.map colorToHex).map PayloadElem.hex).length =
      (if 0 < startIndex then 1 else 0) + colors.length := by
    by_cases h : 0 < startIndex
    · simp [h]
      omega
    · simp [h]
  have hsplit : setIndividualLeds colors startIndex maxBuffer =
      setLedsBatched (colors.map colorToHex) startIndex maxBuffer := by
    rw [setIndividualLeds, if_neg hne]
    simp only [hlen]
    rw [if_pos hover]
  have hn : colors.length = (colors.map colorToHex).length := by simp
  rw [hsplit, setLedsBatched]
  set bs := max 1 ((maxBuffer * 8 / 10 - 20) / 10) with hbs
  have hbs1 : bs - 1 + 1 = bs := by
    have : 1 ≤ bs := le_max_left 1 _
    omega
  refine ⟨?_, ?_, ?_, ?_⟩
  · rw [List.length_map]
    apply batchGo_two
    rw [hbs1, ← hn]
    rw [estimateBufferSize_eq] at hover
    rcases hbuf with h | h <;> subst h <;> simp only [hbs] <;>
      first
        | (have : max 1 ((10000 * 8 / 10 - 20) / 10) = 798 := by norm_num
           rw [this]; split_ifs at hover <;> omega)
        | (have : max 1 ((24000 * 8 / 10 - 20) / 10) = 1918 := by norm_num
           rw [this]; split_ifs at hover <;> omega)
  · rw [List.map_map]
    have : (payloadIndices ∘ fun b => PayloadElem.idx b.1 :: b.2.map PayloadElem.hex) =
        fun b : ℕ × List String => List.range' b.1 b.2.length := by
      funext b
      simp [Function.comp, payloadIndices_batch]
    rw [this, batchGo_cover (bs - 1) (colors.map colorToHex).length _ (le_refl _), ← hn]
  · rw [List.map_map]
    have : (payloadHexes ∘ fun b => PayloadElem.idx b.1 :: b.2.map PayloadElem.hex) =
        fun b : ℕ × List String => b.2 := by
      funext b
      simp [Function.comp, payloadHexes_batch]
    rw [this]
    exact batchGo_concat (bs - 1) (colors.map colorToHex).length _ (le_refl _) _
  · intro req hreq
    rw [List.mem_map] at hreq
    obtain ⟨b, _, rfl⟩ := hreq
    exact ⟨b.1, b.2, rfl⟩

/-- Witness for C1: 832 white LEDs from start index 0 against the conservative
10000-byte buffer (estimate `24 + 12·832 = 10008 > 10000`). -/
theorem c1_set_individual_leds_batching_witness :
    1 < (setIndividualLeds (List.replicate 832 (255, 255, 255)) 0 10000).length ∧
    ((setIndividualLeds (List.replicate 832 (255, 255, 255)) 0 10000).map
        payloadIndices).flatten =
      List.range' 0 (List.replicate 832 ((255 : ℕ), (255 : ℕ), (255 : ℕ))).length ∧
    ((setIndividualLeds (List.replicate 832 (255, 255, 255)) 0 10000).map
        payloadHexes).flatten =
      (List.replicate 832 ((255 : ℕ), (255 : ℕ), (255 : ℕ))).map colorToHex ∧
    (∀ req ∈ setIndividualLeds (List.replicate 832 (255, 255, 255)) 0 10000,
      ∃ (off : ℕ) (hexs : List String),
        req = PayloadElem.idx off :: hexs.map PayloadElem.hex) :=
  c1_set_individual_leds_batching (List.replicate 832 (255, 255, 255)) 0 10000
    (List.ne_nil_of_length_pos (by rw [List.length_replicate]; norm_num))
    (Or.inl rfl)
    (by rw [estimateBufferSize_eq, List.length_replicate]; norm_num)

/-! ### Connection manager cache (`wled_context_effects/wled_manager.py`,
class `WLEDConnectionManager`)

The two client dicts become insertion-ordered key lists (Python dicts preserve
insertion order; the LRU refresh pops the key and re-inserts it at the back).
Only the successful-probe paths matter for the cache-capacity claim, so the
network probe is assumed to succeed. -/

/-- `MAX_CACHED_CLIENTS` (`wled_manager.py` line 20). -/
def MAX_CACHED_CLIENTS : ℕ := 20

/-- The caches of `WLEDConnectionManager`: `_clients` (python-wled, keyed by
host) and `_json_clients` (JSON API, keyed by `"host:port"`). -/
structure WLEDConnectionManager where
  clients : List String
  jsonClients : List String
deriving DecidableEq

/-- `client_count`: `len(self._clients) + len(self._json_clients)`. -/
def WLEDConnectionManager.clientCount (m : WLEDConnectionManager) : ℕ :=
  m.clients.length + m.jsonClients.length

/-- `get_client(host)` (successful probe): a cached client is LRU-refreshed;
otherwise, when the combined count is at capacity, the oldest **python-wled**
client is evicted if `self._clients` is non-empty — no eviction happens when
it is empty, whatever `_json_clients` holds — and the new client is cached. -/
def WLEDConnectionManager.getClient (m : WLEDConnectionManager) (host : String) :
    WLEDConnectionManager :=
  if host ∈ m.clients then
    { m with clients := m.clients.erase host ++ [host] }
  else
    let m1 :=
      if MAX_CACHED_CLIENTS ≤ m.clients.length + m.jsonClients.length then
        match m.clients with
        | [] => m
        | _ :: rest => { m with clients := rest }
      else m
    { m1 with clients := m1.clients ++ [host] }

/-- `get_json_client(host, port)` (successful probe): symmetric to
`get_client`, but eviction only ever touches `self._json_clients`. -/
def WLEDConnectionManager.getJsonClient (m : WLEDConnectionManager) (key : String) :
    WLEDConnectionManager :=
  if key ∈ m.jsonClients then
    { m with jsonClients := m.jsonClients.erase key ++ [key] }
  else
    let m1 :=
      if MAX_CACHED_CLIENTS ≤ m.clients.length + m.jsonClients.length then
        match m.jsonClients with
        | [] => m
        | _ :: rest => { m with jsonClients := rest }
      else m
    { m1 with jsonClients := m1.jsonClients ++ [key] }

/-- **C5 failing input**: on a fresh manager, twenty `get_json_client` calls
for distinct hosts fill the cache with 20 JSON clients; one further
`get_client` call then finds `self._clients` empty, skips eviction although
the combined cache is at capacity, and caches a 21st client — the combined
cache exceeds `MAX_CACHED_CLIENTS`, and no eviction of the least-recently-used
cached client (a JSON client) ever happened. -/
theorem c5_cache_exceeds_capacity :
    MAX_CACHED_CLIENTS <
      (((["h01", "h02", "h03", "h04", "h05", "h06", "h07", "h08", "h09", "h10",
          "h11", "h12", "h13", "h14", "h15", "h16", "h17", "h18", "h19", "h20"
          ] : List String).foldl
            WLEDConnectionManager.getJsonClient ⟨[], []⟩).getClient
        "px").clientCount := by
  have h : (((["h01", "h02", "h03", "h04", "h05", "h06", "h07", "h08", "h09",
      "h10", "h11", "h12", "h13", "h14", "h15", "h16", "h17", "h18", "h19",
      "h20"] : List String).foldl
        WLEDConnectionManager.getJsonClient ⟨[], []⟩).getClient
      "px").clientCount = 21 := by rfl
  rw [h]
  norm_num [MAX_CACHED_CLIENTS]

/-! ### Sparkle fade (`effects/sparkle.py`, `SparkleEffect.run_effect`
lines 187–202)

With `density = 0` the spawn loop runs zero times (`sparkles_to_add = 0`) and
the tick reduces to the fade pass over the per-LED brightness array. -/

/-- `sparkles_to_add = int(led_count * current_density * 0.1)`. -/
def sparklesToAdd (ledCount : ℕ) (density : ℚ) : ℤ :=
  pyInt (ledCount * density * (1 / 10))

/-- The fade step applied to one entry of `self.led_brightness`: a positive
entry is multiplied by `fade_rate` and zeroed once below 0.01; a zero entry is
left alone. -/
def sparkleFadeEntry (fadeRate : ℚ) (x : ℚ) : ℚ :=
  if 0 < x then
    if x * fadeRate < 1 / 100 then 0 else x * fadeRate
  else x

/-- One render tick of the Sparkle effect with `density = 0`: no sparkles are
spawned and every entry undergoes the fade step. -/
def sparkleFadeTick (fadeRate : ℚ) (b : List ℚ) : List ℚ :=
  b.map (sparkleFadeEntry fadeRate)

theorem sparkleFadeEntry_nonneg {r x : ℚ} (hr0 : 0 ≤ r) (hx : 0 ≤ x) :
    0 ≤ sparkleFadeEntry r x := by
  rw [sparkleFadeEntry]
  split_ifs with h1 h2
  · exact le_refl 0
  · exact mul_nonneg hx hr0
  · exact hx

theorem sparkleFadeEntry_le {r x : ℚ} (_hr0 : 0 ≤ r) (hr1 : r < 1) (_hx : 0 ≤ x) :
    sparkleFadeEntry r x ≤ x := by
  rw [sparkleFadeEntry]
  split_ifs with h1 h2
  · linarith
  · calc x * r ≤ x * 1 := mul_le_mul_of_nonneg_left (le_of_lt hr1) (le_of_lt h1)
    _ = x := mul_one x
  · exact le_refl x

theorem sparkleFadeEntry_zero (r : ℚ) : sparkleFadeEntry r 0 = 0 := by
  rw [sparkleFadeEntry]
  simp

theorem sparkleFadeEntry_iter_bound {r : ℚ} (hr0 : 0 ≤ r) (_hr1 : r < 1) :
    ∀ (n : ℕ) (x : ℚ), 0 ≤ x → x ≤ 1 →
      (0 ≤ (sparkleFadeEntry r)^[n] x ∧
        ((sparkleFadeEntry r)^[n] x = 0 ∨ (sparkleFadeEntry r)^[n] x ≤ r ^ n)) := by
  intro n
  induction n with
  | zero => intro x hx0 hx1; simpa using ⟨hx0, Or.inr hx1⟩
  | succ n ih =>
    intro x hx0 hx1
    obtain ⟨hpos, hcase⟩ := ih x hx0 hx1
    rw [Function.iterate_succ_apply']
    refine ⟨sparkleFadeEntry_nonneg hr0 hpos, ?_⟩
    rcases hcase with hzero | hle
    · rw [hzero, sparkleFadeEntry_zero]
      exact Or.inl rfl
    · rw [sparkleFadeEntry]
      split_ifs with h1 h2
      · exact Or.inl rfl
      · right
        rw [pow_succ]
        exact mul_le_mul_of_nonneg_right hle hr0
      · exact Or.inl (le_antisymm (not_lt.mp h1) hpos)

theorem sparkleFadeEntry_iter_zero (r : ℚ) (k : ℕ) :
    (sparkleFadeEntry r)^[k] 0 = 0 := by
  induction k with
  | zero => rfl
  | succ k ih => rw [Function.iterate_succ_apply', ih, sparkleFadeEntry_zero]

theorem sparkleFadeEntry_iter_eq_zero {r : ℚ} (hr0 : 0 ≤ r) (hr1 : r < 1)
    {N : ℕ} (hN : r ^ N < 1 / 100) :
    ∀ (n : ℕ) (x : ℚ), 0 ≤ x → x ≤ 1 → N + 1 ≤ n →
      (sparkleFadeEntry r)^[n] x = 0 := by
  have key : ∀ (x : ℚ), 0 ≤ x → x ≤ 1 → (sparkleFadeEntry r)^[N + 1] x = 0 := by
    intro x hx0 hx1
    obtain ⟨hpos, hcase⟩ := sparkleFadeEntry_iter_bound hr0 hr1 N x hx0 hx1
    rw [Function.iterate_succ_apply']
    rcases hcase with hzero | hle
    · rw [hzero, sparkleFadeEntry_zero]
    · rw [sparkleFadeEntry]
      split_ifs with h1 h2
      · rfl
      · exfalso
        apply h2
        calc (sparkleFadeEntry r)^[N] x * r
            ≤ (sparkleFadeEntry r)^[N] x * 1 :=
              mul_le_mul_of_nonneg_left (le_of_lt hr1) hpos
          _ = (sparkleFadeEntry r)^[N] x := mul_one _
          _ ≤ r ^ N := hle
          _ < 1 / 100 := hN
      · exact le_antisymm (not_lt.mp h1) hpos
  intro n x hx0 hx1 hn
  obtain ⟨k, rfl⟩ : ∃ k, n = k + (N + 1) := ⟨n - (N + 1), by omega⟩
  rw [Function.iterate_add_apply, key x hx0 hx1]
  exact sparkleFadeEntry_iter_zero r k

theorem sparkleFadeTick_iterate (r : ℚ) :
    ∀ (n : ℕ) (b : List ℚ),
      (sparkleFadeTick r)^[n] b = b.map ((sparkleFadeEntry r)^[n]) := by
  intro n
  induction n with
  | zero => intro b; simp
  | succ n ih =>
    intro b
    rw [Function.iterate_succ_apply, ih (sparkleFadeTick r b), sparkleFadeTick,
      List.map_map, Function.iterate_succ]

/-- **C6**: for the Sparkle effect with `density = 0` and `0 ≤ fade_rate < 1`
(brightness entries in `[0, 1]`, as maintained by the effect): no sparkles are
spawned; on every render tick every entry of the brightness array is
non-negative and non-increasing; and there is a bound `N` (depending only on
`fade_rate`) such that after `N` ticks every entry is exactly `0`, because each
positive entry is multiplied by `fade_rate` per tick and set to `0.0` once it
falls below `0.01`. -/
theorem c6_sparkle_fade (r : ℚ) (b : List ℚ) (hr0 : 0 ≤ r) (hr1 : r < 1)
    (hb : ∀ x ∈ b, 0 ≤ x ∧ x ≤ 1) :
    (∀ ledCount : ℕ, sparklesToAdd ledCount 0 = 0) ∧
    (∀ n : ℕ, ∀ x ∈ (sparkleFadeTick r)^[n] b,
      0 ≤ x ∧ sparkleFadeEntry r x ≤ x) ∧
    (∃ N : ℕ, ∀ n : ℕ, N ≤ n →
      (sparkleFadeTick r)^[n] b = List.replicate b.length 0) := by
  refine ⟨?_, ?_, ?_⟩
  · intro ledCount
    rw [sparklesToAdd]
    simp [pyInt]
  · intro n x hx
    rw [sparkleFadeTick_iterate] at hx
    rw [List.mem_map] at hx
    obtain ⟨x0, hx0mem, rfl⟩ := hx
    obtain ⟨hpos, _⟩ :=
      sparkleFadeEntry_iter_bound hr0 hr1 n x0 (hb x0 hx0mem).1 (hb x0 hx0mem).2
    exact ⟨hpos, sparkleFadeEntry_le hr0 hr1 hpos⟩
  · obtain ⟨N, hN⟩ :=
      exists_pow_lt_of_lt_one (show (0 : ℚ) < 1 / 100 by norm_num) hr1
    refine ⟨N + 1, fun n hn => ?_⟩
    rw [sparkleFadeTick_iterate]
    rw [List.map_eq_replicate_iff]
    intro x hx
    exact sparkleFadeEntry_iter_eq_zero hr0 hr1 hN n x (hb x hx).1 (hb x hx).2 hn

/-- Witness for C6: `fade_rate = 1/2`, brightness array `[1, 1/2, 0]`. -/
theorem c6_sparkle_fade_witness :
    (∀ ledCount : ℕ, sparklesToAdd ledCount 0 = 0) ∧
    (∀ n : ℕ, ∀ x ∈ (sparkleFadeTick (1 / 2))^[n] ([1, 1 / 2, 0] : List ℚ),
      0 ≤ x ∧ sparkleFadeEntry (1 / 2) x ≤ x) ∧
    (∃ N : ℕ, ∀ n : ℕ, N ≤ n →
      (sparkleFadeTick (1 / 2))^[n] ([1, 1 / 2, 0] : List ℚ) =
        List.replicate ([1, 1 / 2, 0] : List ℚ).length 0) :=
  c6_sparkle_fade (1 / 2) [1, 1 / 2, 0] (by norm_num) (by norm_num)
    (by intro x hx; fin_cases hx <;> norm_num)

end WledExt
